import Mathlib

/-!
Shallow embedding of `src/include/xpedite/common/WaitFreeBufferPool.H`.

The pool is a circular buffer of `poolSize` slots, each holding `bufferSize`
records. Two 64-bit counters (`writeIndex`, `readIndex`) and a 64-bit
overflow counter coordinate a single producer and a single consumer.
All counter arithmetic in the C++ source is `uint64_t`, i.e. modulo `2^64`;
the embedding keeps counters as `Nat` and applies `% U64` exactly where the
source's unsigned arithmetic can wrap. Slot storage is a flat list of
records (`T = Nat` suffices for the scenarios); a "pointer" to a slot is its
flat offset into that list, matching `&_pool->data()[bufferIndex]`.
-/

namespace Xpedite

def U64 : Nat := 2 ^ 64

/-- `isPoolSizeValid` from the source: `poolSize_ > 1 && (poolSize_ & (poolSize_ - 1)) == 0`. -/
def isPoolSizeValid (poolSize : Nat) : Bool :=
  decide (1 < poolSize) && decide (poolSize &&& (poolSize - 1) = 0)

/-- `readIndexMax = std::numeric_limits<uint64_t>::max() - poolSize`. -/
def readIndexMax (poolSize : Nat) : Nat := U64 - 1 - poolSize

/-- The mutable state of a `WaitFreeBufferPool`: the two indices, the
overflow counter and the backing storage (`bufferSize * poolSize` records). -/
structure PoolState where
  writeIndex : Nat
  readIndex : Nat
  overflowCount : Nat
  pool : List Nat
deriving Repr, DecidableEq

/-- `bufferAt(index_)`: flat offset `(index_ & poolSizeMask) * bufferSize`
of the slot backing logical index `index_`. -/
def bufferAt (poolSize bufferSize index : Nat) : Nat :=
  (index &&& (poolSize - 1)) * bufferSize

/-- The constructor: `W = 0`, `R = readIndexMax`, overflow `= 0`,
zero-initialized storage. -/
def mkWaitFreeBufferPool (bufferSize poolSize : Nat) : PoolState :=
  { writeIndex := 0
    readIndex := readIndexMax poolSize
    overflowCount := 0
    pool := List.replicate (bufferSize * poolSize) 0 }

/-- `nextWritableBuffer`: if `windex < rindex + poolSize` (mod `2^64`),
increment and publish `W` and return the slot at the new `W`; otherwise
increment the overflow counter and return the slot at the unchanged `W`. -/
def nextWritableBuffer (bufferSize poolSize : Nat) (s : PoolState) :
    PoolState × Nat :=
  let windex := s.writeIndex
  let rindex := s.readIndex
  if windex < (rindex + poolSize) % U64 then
    let windex' := (windex + 1) % U64
    ({ s with writeIndex := windex' }, bufferAt poolSize bufferSize windex')
  else
    ({ s with overflowCount := (s.overflowCount + 1) % U64 },
     bufferAt poolSize bufferSize windex)

/-- `nextReadableBuffer(curReadBuf_)`: if the previous buffer is non-null,
advance `R`; then return the slot at `rindex + 1` when `windex > rindex + 1`
(mod `2^64`), else null (`none`). -/
def nextReadableBuffer (bufferSize poolSize : Nat) (s : PoolState)
    (curReadBuf : Option Nat) : PoolState × Option Nat :=
  let rindex := s.readIndex
  let step :=
    if curReadBuf.isSome then
      let r := (rindex + 1) % U64
      (r, { s with readIndex := r })
    else (rindex, s)
  let rindex := step.1
  let s := step.2
  let windex := s.writeIndex
  if windex > (rindex + 1) % U64 then
    (s, some (bufferAt poolSize bufferSize ((rindex + 1) % U64)))
  else (s, none)

/-- The body of `attachReader`'s do-while loop, with explicit fuel standing
for the number of iterations still allowed; `none` models divergence.
Each iteration proposes `rindex = windex ? windex - 1 : 0`, stores it,
reloads `windex` (sequentially: unchanged) and retries while
`windex > rindex + poolSize` (mod `2^64`). -/
def attachLoop (poolSize : Nat) (s : PoolState) (windex : Nat) :
    Nat → Option (PoolState × Nat × Nat)
  | 0 => none
  | fuel + 1 =>
    let rindex := if windex ≠ 0 then windex - 1 else 0
    let s' := { s with readIndex := rindex }
    let windex' := s'.writeIndex
    if windex' > (rindex + poolSize) % U64 then
      attachLoop poolSize s' windex' fuel
    else some (s', rindex, windex')

/-- `attachReader`: load `W`, run the retry loop, return the final
`(rindex, windex)` snapshot. -/
def attachReader (poolSize : Nat) (s : PoolState) (fuel : Nat) :
    Option (PoolState × Nat × Nat) :=
  attachLoop poolSize s s.writeIndex fuel

/-- `detachReader`: snapshot `(rindex, windex)`, then store `readIndexMax`
into `R`. -/
def detachReader (poolSize : Nat) (s : PoolState) : PoolState × Nat × Nat :=
  ({ s with readIndex := readIndexMax poolSize }, s.readIndex, s.writeIndex)

/-- `writeIndex()` accessor. -/
def writeIndexOf (s : PoolState) : Nat := s.writeIndex

/-- `readIndex()` accessor. -/
def readIndexOf (s : PoolState) : Nat := s.readIndex

/-- `overflowCount()` accessor. -/
def overflowCountOf (s : PoolState) : Nat := s.overflowCount

/-- The producer writing record values `vals` into the slot returned at flat
offset `offset` (a plain memcpy into the backing storage). -/
def writeSlot (s : PoolState) (offset : Nat) (vals : List Nat) : PoolState :=
  { s with pool := s.pool.take offset ++ vals ++ s.pool.drop (offset + vals.length) }

/-- Reading the `bufferSize` records of the slot at flat offset `offset`. -/
def readSlot (bufferSize : Nat) (s : PoolState) (offset : Nat) : List Nat :=
  (s.pool.drop offset).take bufferSize

/-- One producer step that claims the next writable buffer and fills it. -/
def produceWrite (bufferSize poolSize : Nat) (s : PoolState) (vals : List Nat) :
    PoolState :=
  let r := nextWritableBuffer bufferSize poolSize s
  writeSlot r.1 r.2 vals

/-- Iterated producer calls (`n` calls to `nextWritableBuffer`, discarding
the returned pointers). -/
def produceN (bufferSize poolSize : Nat) (s : PoolState) : Nat → PoolState
  | 0 => s
  | n + 1 => (nextWritableBuffer bufferSize poolSize (produceN bufferSize poolSize s n)).1

/-! ### Helper lemmas -/

lemma U64_pos : 0 < U64 := by
  simp [U64]

/-- A positive number whose bitwise AND with its predecessor vanishes is a
power of two (the meaning of the `poolSize_ & (poolSize_ - 1) == 0` check). -/
lemma pow_two_of_and_pred_eq_zero :
    ∀ n : Nat, 0 < n → n &&& (n - 1) = 0 → ∃ k, n = 2 ^ k := by
  intro n
  induction n using Nat.strong_induction_on with
  | _ n ih =>
    intro hpos h
    rcases Nat.lt_or_ge n 2 with h2 | h2
    · refine ⟨0, ?_⟩
      omega
    · have hdiv : (n &&& (n - 1)) / 2 = n / 2 &&& (n - 1) / 2 := Nat.and_div_two
      rw [h] at hdiv
      rcases Nat.even_or_odd n with he | ho
      · have he' : n % 2 = 0 := Nat.even_iff.mp he
        have h12 : (n - 1) / 2 = n / 2 - 1 := by omega
        rw [h12] at hdiv
        obtain ⟨k, hk⟩ := ih (n / 2) (by omega) (by omega) hdiv.symm
        refine ⟨k + 1, ?_⟩
        rw [pow_succ]
        omega
      · exfalso
        have ho' : n % 2 = 1 := Nat.odd_iff.mp ho
        have h12 : (n - 1) / 2 = n / 2 := by omega
        rw [h12, Nat.and_self] at hdiv
        omega

/-- For a valid pool size, the bitmask index computation agrees with `mod`. -/
lemma and_mask_eq_mod {poolSize : Nat} (hN : isPoolSizeValid poolSize = true)
    (x : Nat) : x &&& (poolSize - 1) = x % poolSize := by
  have h1 : 1 < poolSize ∧ poolSize &&& (poolSize - 1) = 0 := by
    simpa [isPoolSizeValid] using hN
  obtain ⟨k, hk⟩ := pow_two_of_and_pred_eq_zero poolSize (by omega) h1.2
  subst hk
  exact Nat.and_pow_two_sub_one_eq_mod x k

lemma isPoolSizeValid_one_lt {poolSize : Nat}
    (hN : isPoolSizeValid poolSize = true) : 1 < poolSize := by
  have h1 : 1 < poolSize ∧ poolSize &&& (poolSize - 1) = 0 := by
    simpa [isPoolSizeValid] using hN
  exact h1.1

/-- Congruence classes mod `n` differ when the gap is positive and below `n`. -/
lemma mod_ne_of_pos_gap {a b n : Nat} (hab : a < b) (hgap : b - a < n) :
    a % n ≠ b % n := by
  intro hmod
  have hdvd : n ∣ b - a := (Nat.modEq_iff_dvd' (Nat.le_of_lt hab)).mp hmod
  have hle : n ≤ b - a := Nat.le_of_dvd (by omega) hdvd
  omega

/-- Sequential characterization of the attach retry loop: a successful run
returns the snapshot `(W ? W - 1 : 0, W)` for the (unchanged) write index,
with only `readIndex` mutated, and the exit condition false. -/
lemma attachLoop_eq_some {poolSize : Nat} :
    ∀ (fuel : Nat) (s s' : PoolState) (r w : Nat),
      attachLoop poolSize s s.writeIndex fuel = some (s', r, w) →
      w = s.writeIndex ∧
      r = (if s.writeIndex ≠ 0 then s.writeIndex - 1 else 0) ∧
      s' = { s with readIndex := r } ∧
      ¬ s.writeIndex > (r + poolSize) % U64 := by
  intro fuel
  induction fuel with
  | zero =>
    intro s s' r w h
    simp [attachLoop] at h
  | succ n ih =>
    intro s s' r w h
    simp only [attachLoop] at h
    by_cases hc : s.writeIndex >
        ((if s.writeIndex ≠ 0 then s.writeIndex - 1 else 0) + poolSize) % U64
    · rw [if_pos hc] at h
      have key := ih { s with readIndex := if s.writeIndex ≠ 0 then s.writeIndex - 1 else 0 }
        s' r w (by exact h)
      simp only at key
      obtain ⟨hw, hr, hs', hnc⟩ := key
      rw [← hr] at hc
      exact absurd hc hnc
    · rw [if_neg hc] at h
      simp only [Option.some.injEq, Prod.mk.injEq] at h
      obtain ⟨hs', hr, hw⟩ := h
      subst hs'
      subst hr
      subst hw
      exact ⟨rfl, rfl, rfl, hc⟩

/-- `attachReader` inherits the loop characterization. -/
lemma attachReader_eq_some {poolSize fuel : Nat} {s s' : PoolState} {r w : Nat}
    (h : attachReader poolSize s fuel = some (s', r, w)) :
    w = s.writeIndex ∧
    r = (if s.writeIndex ≠ 0 then s.writeIndex - 1 else 0) ∧
    s' = { s with readIndex := r } ∧
    ¬ s.writeIndex > (r + poolSize) % U64 :=
  attachLoop_eq_some fuel s s' r w h

/-! ### Claims -/

/-- Claim C1: when `W < R + poolSize` (the source's admission check, with the
sum taken in `uint64_t` arithmetic) holds at entry, `nextWritableBuffer`
increments `W` by exactly one and returns the slot at the new `W`; moreover,
in either branch, the returned pointer is the slot `storage[W mod poolSize]`
for the post-call `W`, where the `mod` is computed as the bitmask
`index & (poolSize - 1)`. -/
theorem claimC1_next_writable_advances (bufferSize poolSize : Nat)
    (hN : isPoolSizeValid poolSize = true) (s : PoolState) :
    (s.writeIndex < (s.readIndex + poolSize) % U64 →
      (nextWritableBuffer bufferSize poolSize s).1.writeIndex = s.writeIndex + 1) ∧
    (nextWritableBuffer bufferSize poolSize s).2 =
      bufferAt poolSize bufferSize
        (nextWritableBuffer bufferSize poolSize s).1.writeIndex ∧
    (nextWritableBuffer bufferSize poolSize s).2 =
      ((nextWritableBuffer bufferSize poolSize s).1.writeIndex % poolSize) *
        bufferSize := by
  have hmask := and_mask_eq_mod hN
  refine ⟨?_, ?_, ?_⟩
  · intro hc
    have hlt : (s.readIndex + poolSize) % U64 < U64 := Nat.mod_lt _ U64_pos
    simp only [nextWritableBuffer, if_pos hc]
    exact Nat.mod_eq_of_lt (by omega)
  · simp only [nextWritableBuffer]
    split <;> rfl
  · simp only [nextWritableBuffer]
    split <;> simp [bufferAt, hmask]

theorem claimC1_next_writable_advances_witness :
    (nextWritableBuffer 4 4 (mkWaitFreeBufferPool 4 4)).1.writeIndex =
      (mkWaitFreeBufferPool 4 4).writeIndex + 1 ∧
    (nextWritableBuffer 4 4 (mkWaitFreeBufferPool 4 4)).2 =
      bufferAt 4 4 (nextWritableBuffer 4 4 (mkWaitFreeBufferPool 4 4)).1.writeIndex := by
  have h := claimC1_next_writable_advances 4 4 (by decide) (mkWaitFreeBufferPool 4 4)
  exact ⟨h.1 (by decide), h.2.1⟩

/-- Claim C2: when the admission check fails, `nextWritableBuffer` leaves `W`
and `R` unchanged, increments the overflow counter by exactly one (its
`uint64_t` increment, which is a plain `+ 1` inside the never-wrapping
envelope), and still returns the slot at the unchanged `W`; the overflow
counter is unchanged by `nextReadableBuffer`, `attachReader` and
`detachReader`, is non-decreasing under `nextWritableBuffer` inside the
envelope, and changes only when the pre-call state satisfied
`W = R + poolSize` (given the attached-consumer invariants and no wrap). -/
theorem claimC2_overflow_frame (bufferSize poolSize : Nat) (s : PoolState) :
    (¬ s.writeIndex < (s.readIndex + poolSize) % U64 →
      (nextWritableBuffer bufferSize poolSize s).1.writeIndex = s.writeIndex ∧
      (nextWritableBuffer bufferSize poolSize s).1.readIndex = s.readIndex ∧
      (nextWritableBuffer bufferSize poolSize s).1.overflowCount =
        (s.overflowCount + 1) % U64 ∧
      (s.overflowCount + 1 < U64 →
        (nextWritableBuffer bufferSize poolSize s).1.overflowCount =
          s.overflowCount + 1) ∧
      (nextWritableBuffer bufferSize poolSize s).2 =
        bufferAt poolSize bufferSize s.writeIndex) ∧
    (s.overflowCount + 1 < U64 →
      s.overflowCount ≤ (nextWritableBuffer bufferSize poolSize s).1.overflowCount) ∧
    (∀ prev, (nextReadableBuffer bufferSize poolSize s prev).1.overflowCount =
      s.overflowCount) ∧
    (detachReader poolSize s).1.overflowCount = s.overflowCount ∧
    (∀ fuel s' r w, attachReader poolSize s fuel = some (s', r, w) →
      s'.overflowCount = s.overflowCount) ∧
    (s.readIndex ≤ s.writeIndex → s.writeIndex ≤ s.readIndex + poolSize →
      s.readIndex + poolSize < U64 →
      (nextWritableBuffer bufferSize poolSize s).1.overflowCount ≠ s.overflowCount →
      s.writeIndex = s.readIndex + poolSize) := by
  refine ⟨?_, ?_, ?_, rfl, ?_, ?_⟩
  · intro hc
    simp only [nextWritableBuffer, if_neg hc]
    exact ⟨trivial, trivial, trivial, fun hlt => Nat.mod_eq_of_lt hlt, trivial⟩
  · intro hlt
    simp only [nextWritableBuffer]
    split
    · simp
    · simp [Nat.mod_eq_of_lt hlt]
  · intro prev
    simp only [nextReadableBuffer]
    split <;> split <;> rfl
  · intro fuel s' r w h
    obtain ⟨-, -, hs', -⟩ := attachReader_eq_some h
    rw [hs']
  · intro h1 h2 h3 hne
    by_cases hc : s.writeIndex < (s.readIndex + poolSize) % U64
    · exact absurd (by simp [nextWritableBuffer, if_pos hc]) hne
    · rw [Nat.mod_eq_of_lt h3] at hc
      omega

theorem claimC2_overflow_frame_witness :
    (nextWritableBuffer 4 4 ⟨4, 0, 0, []⟩).1.writeIndex = 4 ∧
    (nextWritableBuffer 4 4 ⟨4, 0, 0, []⟩).1.overflowCount = 0 + 1 ∧
    (4 : Nat) = 0 + 4 := by
  have h := claimC2_overflow_frame 4 4 ⟨4, 0, 0, []⟩
  have h1 := h.1 (by decide)
  exact ⟨h1.1, h1.2.2.2.1 (by decide),
    h.2.2.2.2.2 (by decide) (by decide) (by decide) (by decide)⟩

/-- Closed form of `nextReadableBuffer`: the post-advance read index is
`(R + 1) % 2^64` when the previous buffer is non-null and `R` otherwise, and
data is returned exactly when `W > rindex + 1` (in `uint64_t` arithmetic). -/
lemma nextReadableBuffer_eq (bufferSize poolSize : Nat) (s : PoolState)
    (prev : Option Nat) :
    nextReadableBuffer bufferSize poolSize s prev =
      (if s.writeIndex >
          ((if prev.isSome then (s.readIndex + 1) % U64 else s.readIndex) + 1) % U64
       then
        ({ s with readIndex :=
            if prev.isSome then (s.readIndex + 1) % U64 else s.readIndex },
         some (bufferAt poolSize bufferSize
            (((if prev.isSome then (s.readIndex + 1) % U64 else s.readIndex) + 1) % U64)))
       else
        ({ s with readIndex :=
            if prev.isSome then (s.readIndex + 1) % U64 else s.readIndex },
         none)) := by
  rcases prev with _ | p <;> rfl

/-- Claim C3: `nextReadableBuffer prev` advances `R` by exactly one when
`prev` is non-null (inside the never-wrapping envelope; unconditionally it
performs the `uint64_t` increment) and only then; afterwards it returns the
slot at logical index `R + 1` if and only if `W > R + 1` for the post-call
counters, and returns null otherwise. `W` and the overflow counter are
untouched. -/
theorem claimC3_next_readable (bufferSize poolSize : Nat) (s : PoolState)
    (prev : Option Nat) :
    ((nextReadableBuffer bufferSize poolSize s prev).1.readIndex =
      if prev.isSome then (s.readIndex + 1) % U64 else s.readIndex) ∧
    (prev.isSome = true → s.readIndex + 1 < U64 →
      (nextReadableBuffer bufferSize poolSize s prev).1.readIndex =
        s.readIndex + 1) ∧
    (prev = none →
      (nextReadableBuffer bufferSize poolSize s prev).1.readIndex = s.readIndex) ∧
    (nextReadableBuffer bufferSize poolSize s prev).1.writeIndex = s.writeIndex ∧
    (nextReadableBuffer bufferSize poolSize s prev).1.overflowCount =
      s.overflowCount ∧
    ((nextReadableBuffer bufferSize poolSize s prev).1.readIndex + 1 < U64 →
      ((nextReadableBuffer bufferSize poolSize s prev).2 =
          some (bufferAt poolSize bufferSize
            ((nextReadableBuffer bufferSize poolSize s prev).1.readIndex + 1)) ↔
        s.writeIndex >
          (nextReadableBuffer bufferSize poolSize s prev).1.readIndex + 1) ∧
      ((nextReadableBuffer bufferSize poolSize s prev).2 = none ↔
        ¬ s.writeIndex >
          (nextReadableBuffer bufferSize poolSize s prev).1.readIndex + 1)) := by
  rcases prev with _ | p
  · by_cases hc : s.writeIndex > (s.readIndex + 1) % U64
    · simp only [nextReadableBuffer_eq, Option.isSome_none, Bool.false_eq_true,
        ite_false, if_pos hc]
      refine ⟨trivial, fun h => h.elim, fun _ => trivial, trivial, trivial,
        fun hlt2 => ?_⟩
      have hc' : s.writeIndex > s.readIndex + 1 := by
        rwa [Nat.mod_eq_of_lt hlt2] at hc
      rw [Nat.mod_eq_of_lt hlt2]
      exact ⟨⟨fun _ => hc', fun _ => rfl⟩,
        ⟨fun h => Option.noConfusion h, fun h => absurd hc' h⟩⟩
    · simp only [nextReadableBuffer_eq, Option.isSome_none, Bool.false_eq_true,
        ite_false, if_neg hc]
      refine ⟨trivial, fun h => h.elim, fun _ => trivial, trivial, trivial,
        fun hlt2 => ?_⟩
      have hc' : ¬ s.writeIndex > s.readIndex + 1 := by
        rwa [Nat.mod_eq_of_lt hlt2] at hc
      exact ⟨⟨fun h => Option.noConfusion h, fun hgt => absurd hgt hc'⟩,
        ⟨fun _ => hc', fun _ => trivial⟩⟩
  · by_cases hc : s.writeIndex > ((s.readIndex + 1) % U64 + 1) % U64
    · simp only [nextReadableBuffer_eq, Option.isSome_some, ite_true, if_pos hc]
      refine ⟨trivial, fun _ hlt => Nat.mod_eq_of_lt hlt,
        fun h => Option.noConfusion h, trivial, trivial, fun hlt2 => ?_⟩
      have hc' : s.writeIndex > (s.readIndex + 1) % U64 + 1 := by
        rwa [Nat.mod_eq_of_lt hlt2] at hc
      rw [Nat.mod_eq_of_lt hlt2]
      exact ⟨⟨fun _ => hc', fun _ => rfl⟩,
        ⟨fun h => Option.noConfusion h, fun h => absurd hc' h⟩⟩
    · simp only [nextReadableBuffer_eq, Option.isSome_some, ite_true, if_neg hc]
      refine ⟨trivial, fun _ hlt => Nat.mod_eq_of_lt hlt,
        fun h => Option.noConfusion h, trivial, trivial, fun hlt2 => ?_⟩
      have hc' : ¬ s.writeIndex > (s.readIndex + 1) % U64 + 1 := by
        rwa [Nat.mod_eq_of_lt hlt2] at hc
      exact ⟨⟨fun h => Option.noConfusion h, fun hgt => absurd hgt hc'⟩,
        ⟨fun _ => hc', fun _ => trivial⟩⟩

theorem claimC3_next_readable_witness :
    (nextReadableBuffer 4 4 ⟨3, 0, 0, []⟩ (some 4)).1.readIndex = 0 + 1 ∧
    ((nextReadableBuffer 4 4 ⟨3, 0, 0, []⟩ (some 4)).2 =
        some (bufferAt 4 4
          ((nextReadableBuffer 4 4 ⟨3, 0, 0, []⟩ (some 4)).1.readIndex + 1)) ↔
      (3 : Nat) > (nextReadableBuffer 4 4 ⟨3, 0, 0, []⟩ (some 4)).1.readIndex + 1) := by
  have h := claimC3_next_readable 4 4 ⟨3, 0, 0, []⟩ (some 4)
  exact ⟨h.2.1 (by decide) (by decide), (h.2.2.2.2.2 (by decide)).1⟩

/-- Sequentially, once the attach loop condition holds it holds forever (the
write index never changes under the loop's own stores), so the loop
diverges: it returns `none` for every fuel. -/
lemma attachLoop_cond_none {poolSize : Nat} :
    ∀ (fuel : Nat) (s : PoolState),
      s.writeIndex >
        ((if s.writeIndex ≠ 0 then s.writeIndex - 1 else 0) + poolSize) % U64 →
      attachLoop poolSize s s.writeIndex fuel = none := by
  intro fuel
  induction fuel with
  | zero => intro s h; rfl
  | succ n ih =>
    intro s h
    simp only [attachLoop]
    rw [if_pos h]
    exact ih { s with readIndex := if s.writeIndex ≠ 0 then s.writeIndex - 1 else 0 }
      (by exact h)

/-- Claim C5: `attachReader` proposes `R := W - 1` (or `0` when `W = 0`) from
the `W` it loaded, publishes it, reloads `W` (sequentially unchanged) and
retries exactly while the reloaded `W > R + poolSize`: when that condition
holds it never returns, and a successful attach returns `(R, W)` satisfying
`W ≤ R + poolSize` and `R = max (W - 1) 0`, mutating only `readIndex`. In
particular an attach on a quiescent pool with `W = 0` returns `(0, 0)`. -/
theorem claimC5_attach (poolSize : Nat) :
    (∀ (s s' : PoolState) (fuel r w : Nat),
      attachReader poolSize s fuel = some (s', r, w) →
      w = s.writeIndex ∧
      r = (if w ≠ 0 then w - 1 else 0) ∧
      s'.readIndex = r ∧ s'.writeIndex = s.writeIndex ∧
      s'.overflowCount = s.overflowCount ∧ s'.pool = s.pool ∧
      w ≤ (r + poolSize) % U64 ∧ w ≤ r + poolSize) ∧
    (∀ (s : PoolState) (fuel : Nat),
      s.writeIndex >
        ((if s.writeIndex ≠ 0 then s.writeIndex - 1 else 0) + poolSize) % U64 →
      attachReader poolSize s fuel = none) ∧
    (∀ s : PoolState, s.writeIndex = 0 →
      attachReader poolSize s 1 = some ({ s with readIndex := 0 }, 0, 0)) := by
  refine ⟨?_, ?_, ?_⟩
  · intro s s' fuel r w h
    obtain ⟨hw, hr, hs', hnc⟩ := attachReader_eq_some h
    subst hw
    subst hr
    subst hs'
    refine ⟨rfl, rfl, rfl, rfl, rfl, rfl, Nat.le_of_not_lt hnc, ?_⟩
    exact le_trans (Nat.le_of_not_lt hnc) (Nat.mod_le _ _)
  · intro s fuel h
    exact attachLoop_cond_none fuel s h
  · intro s h0
    simp [attachReader, attachLoop, h0]

theorem claimC5_attach_witness :
    (0 : Nat) = (mkWaitFreeBufferPool 4 4).writeIndex ∧
    attachReader 4 (mkWaitFreeBufferPool 4 4) 1 =
      some ({ mkWaitFreeBufferPool 4 4 with readIndex := 0 }, 0, 0) := by
  have h3 := (claimC5_attach 4).2.2 (mkWaitFreeBufferPool 4 4) rfl
  have h1 := (claimC5_attach 4).1 (mkWaitFreeBufferPool 4 4)
    ({ mkWaitFreeBufferPool 4 4 with readIndex := 0 }) 1 0 0 h3
  exact ⟨h1.1, h3⟩

/-- Claim C6: `detachReader` returns the pre-call `(R, W)` snapshot and then
stores `readIndexMax` into `R`; a subsequent `attachReader` with no
intervening producer activity succeeds (in one iteration, inside the
non-wrapping envelope) and returns `(W - 1, W)` for the unchanged write
index `W`, with natural subtraction so that `W = 0` yields `(0, 0)`. -/
theorem claimC6_detach_then_attach (poolSize : Nat)
    (hN : isPoolSizeValid poolSize = true) (s : PoolState)
    (hw : s.writeIndex + poolSize ≤ U64) :
    detachReader poolSize s =
      ({ s with readIndex := readIndexMax poolSize }, s.readIndex, s.writeIndex) ∧
    attachReader poolSize (detachReader poolSize s).1 1 =
      some ({ s with readIndex := s.writeIndex - 1 },
        s.writeIndex - 1, s.writeIndex) := by
  have hgt := isPoolSizeValid_one_lt hN
  refine ⟨rfl, ?_⟩
  by_cases h0 : s.writeIndex = 0
  · simp [detachReader, attachReader, attachLoop, h0]
  · have hmod : (s.writeIndex - 1 + poolSize) % U64 = s.writeIndex - 1 + poolSize :=
      Nat.mod_eq_of_lt (by omega)
    have hcond : ¬ s.writeIndex > s.writeIndex - 1 + poolSize := by omega
    simp [detachReader, attachReader, attachLoop, h0, hmod, hcond]

theorem claimC6_detach_then_attach_witness :
    detachReader 4 ⟨7, 3, 0, []⟩ =
      ({ (⟨7, 3, 0, []⟩ : PoolState) with readIndex := readIndexMax 4 }, 3, 7) ∧
    attachReader 4 (detachReader 4 ⟨7, 3, 0, []⟩).1 1 =
      some ({ (⟨7, 3, 0, []⟩ : PoolState) with readIndex := 6 }, 6, 7) := by
  have h := claimC6_detach_then_attach 4 (by decide) ⟨7, 3, 0, []⟩ (by decide)
  exact h

/-! ### Legal sequential call sequences -/

/-- A configuration: the pool state plus ghost flags recording whether a
consumer is attached and whether it currently holds a buffer returned by its
last `nextReadableBuffer` call. -/
structure Config where
  pool : PoolState
  attached : Bool
  held : Bool

/-- Legal sequential call sequences on a freshly constructed pool: the
producer may write at any time; the consumer reads only while attached,
passing a non-null previous buffer only if its last read returned one;
attach happens only while detached (and only when its retry loop
terminates); detach only while attached. -/
inductive Reachable (bufferSize poolSize : Nat) : Config → Prop
  | init : Reachable bufferSize poolSize
      ⟨mkWaitFreeBufferPool bufferSize poolSize, false, false⟩
  | write (c : Config) :
      Reachable bufferSize poolSize c →
      Reachable bufferSize poolSize
        ⟨(nextWritableBuffer bufferSize poolSize c.pool).1, c.attached, c.held⟩
  | read (c : Config) (prev : Option Nat) :
      Reachable bufferSize poolSize c →
      c.attached = true →
      (prev.isSome = true → c.held = true) →
      Reachable bufferSize poolSize
        ⟨(nextReadableBuffer bufferSize poolSize c.pool prev).1, true,
          (nextReadableBuffer bufferSize poolSize c.pool prev).2.isSome⟩
  | attach (c : Config) (fuel : Nat) (s' : PoolState) (r w : Nat) :
      Reachable bufferSize poolSize c →
      c.attached = false →
      attachReader poolSize c.pool fuel = some (s', r, w) →
      Reachable bufferSize poolSize ⟨s', true, false⟩
  | detach (c : Config) :
      Reachable bufferSize poolSize c →
      c.attached = true →
      Reachable bufferSize poolSize
        ⟨(detachReader poolSize c.pool).1, false, false⟩

/-- The inductive invariant carried by every legal sequential sequence. -/
def PoolInv (poolSize : Nat) (c : Config) : Prop :=
  c.pool.writeIndex < U64 ∧
  c.pool.readIndex < U64 ∧
  (c.attached = true →
    (c.pool.readIndex < c.pool.writeIndex ∨
      (c.pool.readIndex = 0 ∧ c.pool.writeIndex = 0)) ∧
    c.pool.writeIndex ≤ c.pool.readIndex + poolSize) ∧
  (c.attached = false →
    c.pool.readIndex = readIndexMax poolSize ∧ c.held = false) ∧
  (c.held = true → c.attached = true ∧
    c.pool.readIndex + 1 < c.pool.writeIndex)

/-- Introduction rule for `PoolInv` at a literal configuration, with all
projections pre-reduced. -/
lemma poolInv_mk {poolSize : Nat} {X : PoolState} {a b : Bool}
    (h1 : X.writeIndex < U64) (h2 : X.readIndex < U64)
    (h3 : a = true →
      (X.readIndex < X.writeIndex ∨ (X.readIndex = 0 ∧ X.writeIndex = 0)) ∧
      X.writeIndex ≤ X.readIndex + poolSize)
    (h4 : a = false → X.readIndex = readIndexMax poolSize ∧ b = false)
    (h5 : b = true → a = true ∧ X.readIndex + 1 < X.writeIndex) :
    PoolInv poolSize ⟨X, a, b⟩ := ⟨h1, h2, h3, h4, h5⟩

/-- Every reachable configuration satisfies the invariant. -/
lemma reachable_inv {bufferSize poolSize : Nat} {c : Config}
    (h : Reachable bufferSize poolSize c) : PoolInv poolSize c := by
  have hU := U64_pos
  induction h with
  | init =>
    refine poolInv_mk ?_ ?_ ?_ ?_ ?_
    · show (0 : Nat) < U64
      omega
    · show readIndexMax poolSize < U64
      unfold readIndexMax
      omega
    · intro hatt
      exact Bool.noConfusion hatt
    · intro _
      exact ⟨rfl, rfl⟩
    · intro hheld
      exact Bool.noConfusion hheld
  | write c hc ih =>
    obtain ⟨hW, hR, hAtt, hDet, hHeld⟩ := ih
    dsimp only [nextWritableBuffer]
    by_cases hcond : c.pool.writeIndex < (c.pool.readIndex + poolSize) % U64
    · have hlt : (c.pool.readIndex + poolSize) % U64 < U64 := Nat.mod_lt _ hU
      have hmod : (c.pool.writeIndex + 1) % U64 = c.pool.writeIndex + 1 :=
        Nat.mod_eq_of_lt (by omega)
      have hmle : (c.pool.readIndex + poolSize) % U64 ≤
          c.pool.readIndex + poolSize := Nat.mod_le _ _
      rw [if_pos hcond]
      refine poolInv_mk ?_ ?_ ?_ ?_ ?_ <;> dsimp only
      · rw [hmod]
        omega
      · exact hR
      · intro hatt
        obtain ⟨hord, hbound⟩ := hAtt hatt
        rw [hmod]
        exact ⟨Or.inl (by omega), by omega⟩
      · exact hDet
      · intro hheld
        obtain ⟨h1, h2⟩ := hHeld hheld
        rw [hmod]
        exact ⟨h1, by omega⟩
    · rw [if_neg hcond]
      refine poolInv_mk hW hR hAtt hDet hHeld
  | read c prev hc hatt hprev ih =>
    obtain ⟨hW, hR, hAtt, hDet, hHeld⟩ := ih
    obtain ⟨hord, hbound⟩ := hAtt hatt
    rw [nextReadableBuffer_eq]
    rcases prev with _ | p
    · simp only [Option.isSome_none, Bool.false_eq_true, ite_false]
      by_cases hc2 : c.pool.writeIndex > (c.pool.readIndex + 1) % U64
      · rcases hord with hlt | ⟨hr0, hw0⟩
        · have hmod : (c.pool.readIndex + 1) % U64 = c.pool.readIndex + 1 :=
            Nat.mod_eq_of_lt (by omega)
          rw [if_pos hc2]
          refine poolInv_mk ?_ ?_ ?_ ?_ ?_ <;> dsimp only
          · exact hW
          · exact hR
          · intro _
            exact ⟨Or.inl hlt, hbound⟩
          · intro hdet
            exact Bool.noConfusion hdet
          · intro _
            exact ⟨rfl, by omega⟩
        · exfalso
          rw [hw0] at hc2
          omega
      · rw [if_neg hc2]
        refine poolInv_mk ?_ ?_ ?_ ?_ ?_ <;> dsimp only
        · exact hW
        · exact hR
        · intro _
          exact ⟨hord, hbound⟩
        · intro hdet
          exact Bool.noConfusion hdet
        · intro hheld
          exact Bool.noConfusion hheld
    · have hheld := hHeld (hprev rfl)
      have hmod : (c.pool.readIndex + 1) % U64 = c.pool.readIndex + 1 :=
        Nat.mod_eq_of_lt (by omega)
      simp only [Option.isSome_some, ite_true, hmod]
      by_cases hc2 : c.pool.writeIndex > (c.pool.readIndex + 1 + 1) % U64
      · have hmod2 : (c.pool.readIndex + 1 + 1) % U64 = c.pool.readIndex + 2 :=
          Nat.mod_eq_of_lt (by omega)
        rw [if_pos hc2]
        rw [hmod2] at hc2
        refine poolInv_mk ?_ ?_ ?_ ?_ ?_ <;> dsimp only
        · exact hW
        · omega
        · intro _
          exact ⟨Or.inl (by omega), by omega⟩
        · intro hdet
          exact Bool.noConfusion hdet
        · intro _
          exact ⟨rfl, by omega⟩
      · rw [if_neg hc2]
        refine poolInv_mk ?_ ?_ ?_ ?_ ?_ <;> dsimp only
        · exact hW
        · omega
        · intro _
          exact ⟨Or.inl (by omega), by omega⟩
        · intro hdet
          exact Bool.noConfusion hdet
        · intro hheld2
          exact Bool.noConfusion hheld2
  | attach c fuel s' r w hc hdet hattach ih =>
    obtain ⟨hW, hR, hAtt, hDet, hHeld⟩ := ih
    obtain ⟨hw, hr, hs', hnc⟩ := attachReader_eq_some hattach
    have hmle : (r + poolSize) % U64 ≤ r + poolSize := Nat.mod_le _ _
    have hnc' : c.pool.writeIndex ≤ (r + poolSize) % U64 := Nat.le_of_not_lt hnc
    subst hs'
    refine poolInv_mk ?_ ?_ ?_ ?_ ?_ <;> dsimp only
    · exact hW
    · rw [hr]
      split <;> omega
    · intro _
      constructor
      · rw [hr]
        by_cases h0 : c.pool.writeIndex ≠ 0
        · rw [if_pos h0]
          exact Or.inl (by omega)
        · rw [if_neg h0]
          exact Or.inr ⟨rfl, by omega⟩
      · omega
    · intro hdet2
      exact Bool.noConfusion hdet2
    · intro hheld
      exact Bool.noConfusion hheld
  | detach c hc hatt ih =>
    obtain ⟨hW, hR, hAtt, hDet, hHeld⟩ := ih
    refine poolInv_mk ?_ ?_ ?_ ?_ ?_ <;> dsimp only [detachReader]
    · exact hW
    · show readIndexMax poolSize < U64
      unfold readIndexMax
      omega
    · intro hatt2
      exact Bool.noConfusion hatt2
    · intro _
      exact ⟨rfl, rfl⟩
    · intro hheld
      exact Bool.noConfusion hheld

/-- Claim C4: along every legal sequential call sequence from a freshly
constructed pool, `R ≤ W` holds whenever a consumer is attached, and
`W ≤ R + poolSize` (i.e. `W - R ≤ poolSize`) holds at every point; every
operation preserves this invariant. -/
theorem claimC4_counter_invariants (bufferSize poolSize : Nat)
    (hsz : poolSize < U64) (c : Config)
    (h : Reachable bufferSize poolSize c) :
    (c.attached = true → c.pool.readIndex ≤ c.pool.writeIndex) ∧
    c.pool.writeIndex ≤ c.pool.readIndex + poolSize := by
  obtain ⟨hW, hR, hAtt, hDet, hHeld⟩ := reachable_inv h
  constructor
  · intro hatt
    rcases (hAtt hatt).1 with h1 | h1 <;> omega
  · by_cases hatt : c.attached = true
    · exact (hAtt hatt).2
    · have hd := hDet (Bool.not_eq_true _ ▸ hatt)
      rw [hd.1]
      unfold readIndexMax
      omega

theorem claimC4_counter_invariants_witness :
    ((Config.mk { mkWaitFreeBufferPool 4 4 with readIndex := 0 } true false).attached = true →
      (Config.mk { mkWaitFreeBufferPool 4 4 with readIndex := 0 } true false).pool.readIndex ≤
        (Config.mk { mkWaitFreeBufferPool 4 4 with readIndex := 0 } true false).pool.writeIndex) ∧
    (Config.mk { mkWaitFreeBufferPool 4 4 with readIndex := 0 } true false).pool.writeIndex ≤
      (Config.mk { mkWaitFreeBufferPool 4 4 with readIndex := 0 } true false).pool.readIndex + 4 :=
  claimC4_counter_invariants 4 4 (by decide) _
    (Reachable.attach _ 1 ({ mkWaitFreeBufferPool 4 4 with readIndex := 0 }) 0 0
      Reachable.init rfl (by decide))

/-- Claim C10: in every legal sequential call sequence, a non-null result of
`nextReadableBuffer` is the slot of a logical index `i` with `R < i < W` at
the time of the call (post-advance `R`), hence `i ≥ 1`; its physical slot
(`i & (poolSize-1)`, equally `i mod poolSize`) differs from the slot of the
current `W` being written, so neither logical index `0` nor the slot at the
current `W` is ever handed to the consumer. -/
theorem claimC10_readable_range (bufferSize poolSize : Nat)
    (hN : isPoolSizeValid poolSize = true) (c : Config)
    (h : Reachable bufferSize poolSize c) (prev : Option Nat)
    (hatt : c.attached = true) (hprev : prev.isSome = true → c.held = true)
    (p : Nat)
    (hres : (nextReadableBuffer bufferSize poolSize c.pool prev).2 = some p) :
    ∃ i, p = bufferAt poolSize bufferSize i ∧
      (nextReadableBuffer bufferSize poolSize c.pool prev).1.readIndex < i ∧
      i < c.pool.writeIndex ∧ 1 ≤ i ∧
      i % poolSize ≠ c.pool.writeIndex % poolSize ∧
      i &&& (poolSize - 1) ≠ c.pool.writeIndex &&& (poolSize - 1) := by
  obtain ⟨hW, hR, hAtt, hDet, hHeld⟩ := reachable_inv h
  obtain ⟨hord, hbound⟩ := hAtt hatt
  rw [nextReadableBuffer_eq] at hres ⊢
  rcases prev with _ | q
  · simp only [Option.isSome_none, Bool.false_eq_true, ite_false] at hres ⊢
    by_cases hc2 : c.pool.writeIndex > (c.pool.readIndex + 1) % U64
    · rcases hord with hlt | ⟨hr0, hw0⟩
      · have hmod : (c.pool.readIndex + 1) % U64 = c.pool.readIndex + 1 :=
          Nat.mod_eq_of_lt (by omega)
        rw [if_pos hc2] at hres ⊢
        rw [hmod] at hres hc2
        simp only [Option.some.injEq] at hres
        refine ⟨c.pool.readIndex + 1, hres.symm, by dsimp only; omega, by omega,
          by omega, ?_, ?_⟩
        · exact mod_ne_of_pos_gap (by omega) (by omega)
        · rw [and_mask_eq_mod hN, and_mask_eq_mod hN]
          exact mod_ne_of_pos_gap (by omega) (by omega)
      · exfalso
        rw [hw0] at hc2
        omega
    · rw [if_neg hc2] at hres
      exact Option.noConfusion hres
  · have hheld := hHeld (hprev rfl)
    have hmod : (c.pool.readIndex + 1) % U64 = c.pool.readIndex + 1 :=
      Nat.mod_eq_of_lt (by omega)
    simp only [Option.isSome_some, ite_true, hmod] at hres ⊢
    by_cases hc2 : c.pool.writeIndex > (c.pool.readIndex + 1 + 1) % U64
    · have hmod2 : (c.pool.readIndex + 1 + 1) % U64 = c.pool.readIndex + 2 :=
        Nat.mod_eq_of_lt (by omega)
      rw [if_pos hc2] at hres ⊢
      rw [hmod2] at hres hc2
      simp only [Option.some.injEq] at hres
      refine ⟨c.pool.readIndex + 2, hres.symm, by dsimp only; omega, by omega,
        by omega, ?_, ?_⟩
      · exact mod_ne_of_pos_gap (by omega) (by omega)
      · rw [and_mask_eq_mod hN, and_mask_eq_mod hN]
        exact mod_ne_of_pos_gap (by omega) (by omega)
    · rw [if_neg hc2] at hres
      exact Option.noConfusion hres

theorem claimC10_readable_range_witness :
    ∃ i, (4 : Nat) = bufferAt 4 4 i ∧ (0 : Nat) < i ∧ i < 2 ∧ 1 ≤ i ∧
      i % 4 ≠ 2 % 4 ∧ i &&& 3 ≠ 2 &&& 3 := by
  have h1 : Reachable 4 4 ⟨{ mkWaitFreeBufferPool 4 4 with readIndex := 0 }, true, false⟩ :=
    Reachable.attach _ 1 _ 0 0 Reachable.init rfl (by decide)
  have hr := Reachable.write _ (Reachable.write _ h1)
  have h := claimC10_readable_range 4 4 (by decide) _ hr none rfl
    (fun hh => Bool.noConfusion hh) 4 (by decide)
  exact h

/-- One-step unfolding of `produceN`. -/
lemma produceN_succ (bufferSize poolSize : Nat) (s : PoolState) (n : Nat) :
    produceN bufferSize poolSize s (n + 1) =
      (nextWritableBuffer bufferSize poolSize
        (produceN bufferSize poolSize s n)).1 := rfl

/-- While detached (fresh pool, `R = readIndexMax`), the first `n < 2^64`
producer calls each advance `W` by one, leaving `R`, the overflow counter
and the storage untouched. -/
lemma produceN_detached (bufferSize poolSize : Nat) (hsz : poolSize < U64) :
    ∀ n, n < U64 →
      produceN bufferSize poolSize (mkWaitFreeBufferPool bufferSize poolSize) n =
        { mkWaitFreeBufferPool bufferSize poolSize with writeIndex := n } := by
  intro n
  induction n with
  | zero => intro _; rfl
  | succ m ih =>
    intro hlt
    have hU := U64_pos
    have hm := ih (by omega)
    have hsum : readIndexMax poolSize + poolSize = U64 - 1 := by
      unfold readIndexMax
      omega
    have hcond : m < (readIndexMax poolSize + poolSize) % U64 := by
      rw [hsum, Nat.mod_eq_of_lt (by omega)]
      omega
    have hmod : (m + 1) % U64 = m + 1 := Nat.mod_eq_of_lt hlt
    simp only [produceN]
    rw [hm]
    simp only [nextWritableBuffer, mkWaitFreeBufferPool]
    rw [if_pos hcond, hmod]

/-- Claim C7 (counterexample): the claim's universal statement "for every
finite sequence of producer calls while detached, every call advances `W`
and overflow stays zero" fails at the concrete run of `2^64` calls from a
fresh pool: the last call finds `W = 2^64 - 1`, which is not below
`readIndexMax + poolSize = 2^64 - 1`, so it bumps the overflow counter
instead of advancing. -/
theorem claimC7_counterexample :
    (produceN 4 4 (mkWaitFreeBufferPool 4 4) (U64 - 1 + 1)).overflowCount ≠ 0 ∧
    (produceN 4 4 (mkWaitFreeBufferPool 4 4) (U64 - 1 + 1)).writeIndex =
      U64 - 1 := by
  have hU := U64_pos
  have hm := produceN_detached 4 4 (by decide) (U64 - 1) (by omega)
  rw [produceN_succ, hm]
  simp only [nextWritableBuffer, mkWaitFreeBufferPool]
  rw [if_neg (by decide)]
  exact ⟨by decide, rfl⟩

/-- Claim C7 (amended): a freshly constructed pool is detached with `W = 0`,
overflow `= 0` and `R = readIndexMax = 2^64 - 1 - poolSize`; and for every
finite sequence of fewer than `2^64` `nextWritableBuffer` calls performed
while the pool stays detached, every call advances `W` by one and the
overflow counter remains zero (at the `2^64`-th call `W = 2^64 - 1` stops
advancing and overflow becomes one instead). -/
theorem claimC7_detached_writes_amended (bufferSize poolSize : Nat)
    (hsz : poolSize < U64) :
    (mkWaitFreeBufferPool bufferSize poolSize).writeIndex = 0 ∧
    (mkWaitFreeBufferPool bufferSize poolSize).overflowCount = 0 ∧
    (mkWaitFreeBufferPool bufferSize poolSize).readIndex = U64 - 1 - poolSize ∧
    ∀ n, n < U64 →
      (produceN bufferSize poolSize
        (mkWaitFreeBufferPool bufferSize poolSize) n).writeIndex = n ∧
      (produceN bufferSize poolSize
        (mkWaitFreeBufferPool bufferSize poolSize) n).readIndex =
          readIndexMax poolSize ∧
      (produceN bufferSize poolSize
        (mkWaitFreeBufferPool bufferSize poolSize) n).overflowCount = 0 := by
  refine ⟨rfl, rfl, rfl, fun n hn => ?_⟩
  rw [produceN_detached bufferSize poolSize hsz n hn]
  exact ⟨rfl, rfl, rfl⟩

theorem claimC7_detached_writes_amended_witness :
    (mkWaitFreeBufferPool 4 4).writeIndex = 0 ∧
    (produceN 4 4 (mkWaitFreeBufferPool 4 4) 3).writeIndex = 3 ∧
    (produceN 4 4 (mkWaitFreeBufferPool 4 4) 3).overflowCount = 0 := by
  have h := claimC7_detached_writes_amended 4 4 (by decide)
  have h3 := h.2.2.2 3 (by decide)
  exact ⟨h.1, h3.1, h3.2.2⟩

/-! ### End-to-end scenarios (`bufferSize = 4`, `poolSize = 4`) -/

/-- The pool state right after a successful attach on a fresh pool. -/
def scn9s1 : PoolState := { mkWaitFreeBufferPool 4 4 with readIndex := 0 }

/-- Single producer call after attach. -/
def scn9w : PoolState × Nat := nextWritableBuffer 4 4 scn9s1

/-- The producer fills the returned slot with `[1, 2, 3, 4]`. -/
def scn9s2 : PoolState := writeSlot scn9w.1 scn9w.2 [1, 2, 3, 4]

/-- The consumer's first read (no previous buffer). -/
def scn9r1 : PoolState × Option Nat := nextReadableBuffer 4 4 scn9s2 none

/-- The consumer's second read, passing whatever the first returned. -/
def scn9r2 : PoolState × Option Nat := nextReadableBuffer 4 4 scn9r1.1 scn9r1.2

/-- Claim C9 (counterexample): after attaching at `W = 0` and a single
producer call whose slot is filled with `[1, 2, 3, 4]`, the consumer's first
`nextReadableBuffer none` returns `none` (the pool has `W = 1 = R + 1`, and
the slot at the current `W` is never readable), not a slot containing
`[1, 2, 3, 4]` as the claim states. -/
theorem claimC9_counterexample :
    attachReader 4 (mkWaitFreeBufferPool 4 4) 1 = some (scn9s1, 0, 0) ∧
    readSlot 4 scn9s2 scn9w.2 = [1, 2, 3, 4] ∧
    scn9r1.2 = none := by decide

/-- Claim C9 (amended): with `bufferSize = 4`, `poolSize = 4`, after
attaching at `W = 0` and a single `nextWritableBuffer` call whose returned
slot is filled with `[1, 2, 3, 4]`, the consumer's first
`nextReadableBuffer none` returns `none` (the filled slot sits at the
current `W`, not yet readable), and the immediately following call also
returns `none`. -/
theorem claimC9_single_write_read_amended :
    attachReader 4 (mkWaitFreeBufferPool 4 4) 1 = some (scn9s1, 0, 0) ∧
    scn9w.1.writeIndex = 1 ∧
    readSlot 4 scn9s2 scn9w.2 = [1, 2, 3, 4] ∧
    scn9r1.2 = none ∧
    scn9r2.2 = none := by decide

/-- The pool state right after a successful attach on a fresh pool
(fill-without-drain scenario). -/
def scn8p0 : PoolState := { mkWaitFreeBufferPool 4 4 with readIndex := 0 }

/-- First producer call and fill with record value `11` (content A). -/
def scn8w1 : PoolState × Nat := nextWritableBuffer 4 4 scn8p0

/-- The slot returned by the first call, filled with A. -/
def scn8p1 : PoolState := writeSlot scn8w1.1 scn8w1.2 [11, 11, 11, 11]

/-- Second producer call (content B = `12`). -/
def scn8w2 : PoolState × Nat := nextWritableBuffer 4 4 scn8p1

/-- State after writing B. -/
def scn8p2 : PoolState := writeSlot scn8w2.1 scn8w2.2 [12, 12, 12, 12]

/-- Third producer call (content C = `13`). -/
def scn8w3 : PoolState × Nat := nextWritableBuffer 4 4 scn8p2

/-- State after writing C. -/
def scn8p3 : PoolState := writeSlot scn8w3.1 scn8w3.2 [13, 13, 13, 13]

/-- Fourth producer call (content D = `14`). -/
def scn8w4 : PoolState × Nat := nextWritableBuffer 4 4 scn8p3

/-- State after writing D. -/
def scn8p4 : PoolState := writeSlot scn8w4.1 scn8w4.2 [14, 14, 14, 14]

/-- Fifth producer call (content E = `15`); the pool is full. -/
def scn8w5 : PoolState × Nat := nextWritableBuffer 4 4 scn8p4

/-- State after writing E over the slot that held D. -/
def scn8p5 : PoolState := writeSlot scn8w5.1 scn8w5.2 [15, 15, 15, 15]

/-- First consumer read of the drain. -/
def scn8r1 : PoolState × Option Nat := nextReadableBuffer 4 4 scn8p5 none

/-- Second consumer read. -/
def scn8r2 : PoolState × Option Nat := nextReadableBuffer 4 4 scn8r1.1 scn8r1.2

/-- Third consumer read. -/
def scn8r3 : PoolState × Option Nat := nextReadableBuffer 4 4 scn8r2.1 scn8r2.2

/-- Fourth consumer read. -/
def scn8r4 : PoolState × Option Nat := nextReadableBuffer 4 4 scn8r3.1 scn8r3.2

/-- Claim C8 (counterexample): in the fill-without-drain scenario the drain
observes A, B, C and then `none` — the fourth read returns `none`, never a
slot holding E (`15`), contradicting the claimed observation sequence
`A, B, C, E`. -/
theorem claimC8_counterexample :
    scn8r1.2.map (readSlot 4 scn8r1.1) = some [11, 11, 11, 11] ∧
    scn8r2.2.map (readSlot 4 scn8r2.1) = some [12, 12, 12, 12] ∧
    scn8r3.2.map (readSlot 4 scn8r3.1) = some [13, 13, 13, 13] ∧
    scn8r4.2 = none := by decide

/-- Claim C8 (amended): with `bufferSize = 4`, `poolSize = 4`, after
attaching at `W = 0`, five producer calls writing A, B, C, D, E: the first
four advance `W` to 4; the fifth leaves `W` unchanged, raises overflow to 1
and returns the same slot that held D (which then holds E). The consumer's
drain then observes A, B, C in that order before receiving `none`: the slot
now holding E is the one at the current `W` and is not returned. -/
theorem claimC8_fill_without_drain_amended :
    attachReader 4 (mkWaitFreeBufferPool 4 4) 1 = some (scn8p0, 0, 0) ∧
    scn8w4.1.writeIndex = 4 ∧
    scn8w5.1.writeIndex = 4 ∧
    scn8w5.1.overflowCount = 1 ∧
    scn8w5.2 = scn8w4.2 ∧
    readSlot 4 scn8p4 scn8w4.2 = [14, 14, 14, 14] ∧
    readSlot 4 scn8p5 scn8w5.2 = [15, 15, 15, 15] ∧
    scn8r1.2.map (readSlot 4 scn8r1.1) = some [11, 11, 11, 11] ∧
    scn8r2.2.map (readSlot 4 scn8r2.1) = some [12, 12, 12, 12] ∧
    scn8r3.2.map (readSlot 4 scn8r3.1) = some [13, 13, 13, 13] ∧
    scn8r4.2 = none := by decide

end Xpedite
